import Mathlib

/-!
Verification of the symbolic value model of `torchdynamo/variable_tracker.py`.

The Python module defines a class hierarchy rooted at `VariableTracker`
(immutable tracked values), a three-valued tracing-support enum with a
max-combinator, guard-set propagation, a deep functional traversal `apply`,
structural identity keys `get_key`, constant extraction, list/constant
indexing, tensor specialization, and a single mutable iterator variant.

The embedding below is a shallow one: the class hierarchy becomes a closed
inductive `VariableTracker` with one constructor per Python subclass; sets
become `Finset`; Python `None` becomes `Option`; methods that raise
(`NotImplementedError`, `IndexError`, `StopIteration`) return `Option` or an
explicit signal.  Object identity (`id(...)` in Python) is modelled by `Nat`
identifiers: two live Python objects have equal `id` exactly when they are
the same object, so an id-keyed field is represented by the identifier that
determines the referenced object.
-/

/-- Python literal values as classified by `ConstantVariable.is_literal`
(bool/int/str/None and homogeneous list/tuple collections; floats are not
modelled).  `bool` is kept separate from `int` because Python distinguishes
the types even though `True == 1`. -/
inductive PyLit where
  | pynone : PyLit
  | bool (b : Bool) : PyLit
  | int (n : Int) : PyLit
  | str (s : String) : PyLit
  | list (xs : List PyLit) : PyLit
  | tuple (xs : List PyLit) : PyLit

mutual

/-- Python `==` on literals: `bool` and `int` compare across types
(`True == 1`, `False == 0`); containers compare elementwise but a list is
never `==` to a tuple; all other cross-type comparisons are `False`. -/
def pyEq : PyLit → PyLit → Bool
  | PyLit.pynone, PyLit.pynone => true
  | PyLit.bool a, PyLit.bool b => a == b
  | PyLit.bool a, PyLit.int n => (if a then (1 : Int) else 0) == n
  | PyLit.int n, PyLit.bool b => n == (if b then (1 : Int) else 0)
  | PyLit.int a, PyLit.int b => a == b
  | PyLit.str a, PyLit.str b => a == b
  | PyLit.list a, PyLit.list b => pyEqList a b
  | PyLit.tuple a, PyLit.tuple b => pyEqList a b
  | _, _ => false

/-- Elementwise Python `==` on literal sequences. -/
def pyEqList : List PyLit → List PyLit → Bool
  | [], [] => true
  | x :: xs, y :: ys => pyEq x y && pyEqList xs ys
  | _, _ => false

end

/-- `class TracingSupported(enum.Enum)`: UNKNOWN = 0, YES = 1, NO = 2.
The spec calls YES "SUPPORTED" and NO "UNSUPPORTED". -/
inductive TracingSupported where
  | UNKNOWN : TracingSupported
  | YES : TracingSupported
  | NO : TracingSupported
deriving DecidableEq

/-- The numeric value of each enum member. -/
def TracingSupported.value : TracingSupported → Nat
  | UNKNOWN => 0
  | YES => 1
  | NO => 2

/-- `TracingSupported(n)`: the enum member with the given value (the code
only ever applies this to the max of two member values, which is 0, 1 or 2). -/
def TracingSupported.ofValue : Nat → TracingSupported
  | 0 => UNKNOWN
  | 1 => YES
  | _ => NO

/-- `TracingSupported.combine(a, b) = TracingSupported(max(a.value, b.value))`. -/
def TracingSupported.combine (a b : TracingSupported) : TracingSupported :=
  TracingSupported.ofValue (max a.value b.value)

/-- `combine_states = functools.partial(functools.reduce, TracingSupported.combine)`:
`reduce` over a non-empty sequence folds the combinator from the first
element; it is undefined (raises) on an empty sequence, hence the explicit
head argument here. -/
def combine_states (hd : TracingSupported) (tl : List TracingSupported) : TracingSupported :=
  tl.foldl TracingSupported.combine hd

/-- Modelled from the spec: `GuardSource` (binding-source ∈ LOCAL, GLOBAL)
comes from `torchdynamo/guards.py`, which is not among the provided sources. -/
inductive GuardSource where
  | LOCAL : GuardSource
  | GLOBAL : GuardSource
deriving DecidableEq

/-- Modelled from the spec: a Guard is a (binding-name, binding-source,
validation-predicate) triple, immutable and hashable; `torchdynamo/guards.py`
is not among the provided sources.  The opaque validation predicate is
represented by an identifier. -/
structure Guard where
  name : String
  source : GuardSource
  fn : Nat
deriving DecidableEq

/-- The fields that `VariableTracker.__init__` sets on every variant:
`state`, `guards`, `initial_name` (local source-name binding) and
`global_name` (global binding). -/
structure Common where
  state : TracingSupported
  guards : Finset Guard
  initial_name : Option String
  global_name : Option String
deriving DecidableEq

/-- The common fields produced by `VariableTracker.__init__` with no
arguments: UNKNOWN state, empty guard set, no bindings. -/
def Common.default : Common :=
  ⟨TracingSupported.UNKNOWN, ∅, Option.none, Option.none⟩

/-- Tag distinguishing the three concrete subclasses of `BaseListVariable`
(`ListVariable`, `TupleVariable`, `SliceVariable`); `clone` preserves the
subclass, so the tag travels with the items. -/
inductive ListKind where
  | list : ListKind
  | tuple : ListKind
  | slice : ListKind
deriving DecidableEq

/-- The `VariableTracker` hierarchy as a closed inductive, one constructor
per subclass used by the claims.  Fields that hold live Python/FX objects
(`torch.fx.Proxy`, function objects, type objects) are represented by `Nat`
object identifiers.  `TensorVariable` and `UnknownVariable` do not override
`get_key`, `as_python_constant` or `getitem_const`; they stand for the
variants that use the base-class behaviour. -/
inductive VariableTracker where
  | ConstantVariable (value : PyLit) (c : Common) : VariableTracker
  | BaseListVariable (kind : ListKind) (items : List VariableTracker) (c : Common) : VariableTracker
  | ConstDictVariable (items : List (String × VariableTracker)) (c : Common) : VariableTracker
  | ListIteratorVariable (items : List VariableTracker) (index : Nat) (c : Common) : VariableTracker
  | GetAttrVariable (obj : VariableTracker) (name : String) (c : Common) : VariableTracker
  | NNModuleVariable (module_key : String) (c : Common) : VariableTracker
  | TensorVariable (proxyId : Nat) (c : Common) : VariableTracker
  | UnsupportedVariable (valueId : Nat) (valueTypeId : Nat) (c : Common) : VariableTracker
  | UnknownVariable (c : Common) : VariableTracker

/-- The common `__init__` fields of any variant. -/
def VariableTracker.common : VariableTracker → Common
  | VariableTracker.ConstantVariable _ c => c
  | VariableTracker.BaseListVariable _ _ c => c
  | VariableTracker.ConstDictVariable _ c => c
  | VariableTracker.ListIteratorVariable _ _ c => c
  | VariableTracker.GetAttrVariable _ _ c => c
  | VariableTracker.NNModuleVariable _ c => c
  | VariableTracker.TensorVariable _ c => c
  | VariableTracker.UnsupportedVariable _ _ c => c
  | VariableTracker.UnknownVariable c => c

/-- `self.state`. -/
def VariableTracker.state (v : VariableTracker) : TracingSupported :=
  v.common.state

/-- `self.guards`. -/
def VariableTracker.guards (v : VariableTracker) : Finset Guard :=
  v.common.guards

/-- `VariableTracker.propagate(vars)`: returns the empty record `{}` for an
empty list, otherwise a record with both a `state` field (reduce of
`TracingSupported.combine`) and a `guards` field (reduce of `set.union`).
The two shapes are captured by `Option`: `none` is the empty record. -/
def VariableTracker.propagate :
    List VariableTracker → Option (TracingSupported × Finset Guard)
  | [] => Option.none
  | v :: vs =>
    Option.some
      (combine_states v.state (vs.map VariableTracker.state),
       (vs.map VariableTracker.guards).foldl (· ∪ ·) v.guards)

/-- The effect of calling `VariableTracker(**options)` on a propagate result:
keyword arguments override the constructor defaults
(`state=TracingSupported.UNKNOWN`, `guards=None` which `__init__` turns into
the empty set, no name bindings). -/
def applyOptions (opts : Option (TracingSupported × Finset Guard)) : Common :=
  match opts with
  | Option.none => Common.default
  | Option.some (s, g) => ⟨s, g, Option.none, Option.none⟩

/-- The guard component of a propagate result (empty for the empty record). -/
def propagateGuards (vars : List VariableTracker) : Finset Guard :=
  match VariableTracker.propagate vars with
  | Option.none => ∅
  | Option.some (_, g) => g

/-- The state component of a propagate result, if present. -/
def propagateState (vars : List VariableTracker) : Option TracingSupported :=
  (VariableTracker.propagate vars).map Prod.fst

/-- `def identity(x): return x`. -/
def identity (x : VariableTracker) : VariableTracker := x

theorem combine_eq_NO (a b : TracingSupported) :
    TracingSupported.combine a b = TracingSupported.NO ↔
      a = TracingSupported.NO ∨ b = TracingSupported.NO := by
  cases a <;> cases b <;> decide

theorem combine_eq_UNKNOWN (a b : TracingSupported) :
    TracingSupported.combine a b = TracingSupported.UNKNOWN ↔
      a = TracingSupported.UNKNOWN ∧ b = TracingSupported.UNKNOWN := by
  cases a <;> cases b <;> decide

theorem combine_eq_YES (a b : TracingSupported) :
    TracingSupported.combine a b = TracingSupported.YES ↔
      (a = TracingSupported.YES ∨ b = TracingSupported.YES) ∧
      a ≠ TracingSupported.NO ∧ b ≠ TracingSupported.NO := by
  cases a <;> cases b <;> decide

theorem combine_states_cons (acc x : TracingSupported) (l : List TracingSupported) :
    combine_states acc (x :: l) = combine_states (TracingSupported.combine acc x) l := rfl

theorem combine_states_eq_NO (acc : TracingSupported) (l : List TracingSupported) :
    combine_states acc l = TracingSupported.NO ↔
      acc = TracingSupported.NO ∨ ∃ x ∈ l, x = TracingSupported.NO := by
  induction l generalizing acc with
  | nil => simp [combine_states]
  | cons x l ih =>
    rw [combine_states_cons, ih]
    simp [combine_eq_NO, List.mem_cons, or_assoc]
    tauto

theorem combine_states_eq_UNKNOWN (acc : TracingSupported) (l : List TracingSupported) :
    combine_states acc l = TracingSupported.UNKNOWN ↔
      acc = TracingSupported.UNKNOWN ∧ ∀ x ∈ l, x = TracingSupported.UNKNOWN := by
  induction l generalizing acc with
  | nil => simp [combine_states]
  | cons x l ih =>
    rw [combine_states_cons, ih]
    simp [combine_eq_UNKNOWN, List.mem_cons]
    tauto

theorem combine_states_eq_YES (acc : TracingSupported) (l : List TracingSupported) :
    combine_states acc l = TracingSupported.YES ↔
      (acc = TracingSupported.YES ∨ ∃ x ∈ l, x = TracingSupported.YES) ∧
      ¬(acc = TracingSupported.NO ∨ ∃ x ∈ l, x = TracingSupported.NO) := by
  induction l generalizing acc with
  | nil =>
    simp [combine_states]
    rintro rfl
    decide
  | cons x l ih =>
    rw [combine_states_cons, ih]
    simp [combine_eq_YES, combine_eq_NO, List.mem_cons]
    tauto

/-- C1 counterexample: the claim says `propagate([])` returns a combined
record whose support state is UNKNOWN and whose guard set is empty, but the
code returns the empty record `{}` (no `state` or `guards` key at all). -/
theorem C1_empty_propagate_counterexample :
    VariableTracker.propagate [] ≠
      Option.some (TracingSupported.UNKNOWN, (∅ : Finset Guard)) := by
  simp [VariableTracker.propagate]

/-- C1 (amended): for the empty operand list `propagate` returns the empty
record `{}`; applying that record as constructor keyword overrides yields the
neutral identity (UNKNOWN support state, empty guard set, no bindings),
because those are the `__init__` defaults. -/
theorem C1_empty_propagate_neutral_identity :
    applyOptions (VariableTracker.propagate []) = Common.default := rfl

/-- C2: for every non-empty operand list, the combined support state of
`propagate` is NO (UNSUPPORTED) iff some operand's state is NO; otherwise it
is YES (SUPPORTED) iff some operand's state is YES; otherwise it is UNKNOWN
— i.e. the reduce of `TracingSupported.combine` takes the maximum under
UNKNOWN < YES < NO. -/
theorem C2_support_state_monotonicity (v : VariableTracker) (vs : List VariableTracker) :
    (propagateState (v :: vs) = Option.some TracingSupported.NO ↔
      ∃ u ∈ v :: vs, u.state = TracingSupported.NO) ∧
    (propagateState (v :: vs) = Option.some TracingSupported.YES ↔
      (∃ u ∈ v :: vs, u.state = TracingSupported.YES) ∧
      ¬∃ u ∈ v :: vs, u.state = TracingSupported.NO) ∧
    (propagateState (v :: vs) = Option.some TracingSupported.UNKNOWN ↔
      ∀ u ∈ v :: vs, u.state = TracingSupported.UNKNOWN) := by
  have hstate : propagateState (v :: vs) =
      Option.some (combine_states v.state (vs.map VariableTracker.state)) := rfl
  rw [hstate]
  refine ⟨?_, ?_, ?_⟩
  · rw [Option.some_inj, combine_states_eq_NO]
    constructor
    · rintro (h | ⟨x, hx, hxn⟩)
      · exact ⟨v, by simp, h⟩
      · rcases List.mem_map.mp hx with ⟨u, hu, rfl⟩
        exact ⟨u, by simp [hu], hxn⟩
    · rintro ⟨u, hu, hus⟩
      rcases List.mem_cons.mp hu with rfl | hu
      · exact Or.inl hus
      · exact Or.inr ⟨u.state, List.mem_map.mpr ⟨u, hu, rfl⟩, hus⟩
  · rw [Option.some_inj, combine_states_eq_YES]
    constructor
    · rintro ⟨hy, hn⟩
      constructor
      · rcases hy with h | ⟨x, hx, hxy⟩
        · exact ⟨v, by simp, h⟩
        · rcases List.mem_map.mp hx with ⟨u, hu, rfl⟩
          exact ⟨u, by simp [hu], hxy⟩
      · rintro ⟨u, hu, hus⟩
        rcases List.mem_cons.mp hu with rfl | hu
        · exact hn (Or.inl hus)
        · exact hn (Or.inr ⟨u.state, List.mem_map.mpr ⟨u, hu, rfl⟩, hus⟩)
    · rintro ⟨⟨u, hu, hus⟩, hn⟩
      constructor
      · rcases List.mem_cons.mp hu with rfl | hu
        · exact Or.inl hus
        · exact Or.inr ⟨u.state, List.mem_map.mpr ⟨u, hu, rfl⟩, hus⟩
      · rintro (h | ⟨x, hx, hxn⟩)
        · exact hn ⟨v, by simp, h⟩
        · rcases List.mem_map.mp hx with ⟨u2, hu2, rfl⟩
          exact hn ⟨u2, by simp [hu2], hxn⟩
  · rw [Option.some_inj, combine_states_eq_UNKNOWN]
    constructor
    · rintro ⟨hv, hall⟩ u hu
      rcases List.mem_cons.mp hu with rfl | hu
      · exact hv
      · exact hall u.state (List.mem_map.mpr ⟨u, hu, rfl⟩)
    · intro hall
      exact ⟨hall v (by simp), fun x hx => by
        rcases List.mem_map.mp hx with ⟨u, hu, rfl⟩
        exact hall u (by simp [hu])⟩

/-- Python truthiness of an optional string field: `if self.initial_name:`
takes the branch exactly when the field is not `None` and not the empty
string. -/
def pyTruthy : Option String → Bool
  | Option.none => false
  | Option.some s => !(s == "")

/-- `VariableTracker.create_guard(self, fn)` (the base-class method; it reads
only the common `initial_name`/`global_name` fields, so it is defined on
`Common` here).  A truthy `initial_name` yields `Guard(initial_name, LOCAL,
fn)`; else a truthy `global_name` yields `Guard(global_name, GLOBAL, fn)`;
else the method raises (`NotImplementedError`, the "NoGuardPossible"
condition), modelled as `none`.  `GetAttrVariable` overrides this method and
is outside the claims' scope. -/
def VariableTracker.create_guard (c : Common) (fn : Nat) : Option Guard :=
  if pyTruthy c.initial_name then
    Option.some ⟨c.initial_name.getD "", GuardSource.LOCAL, fn⟩
  else if pyTruthy c.global_name then
    Option.some ⟨c.global_name.getD "", GuardSource.GLOBAL, fn⟩
  else Option.none

/-- C7: `create_guard` fails with the NoGuardPossible condition iff the value
has neither a (truthy) local source-name binding nor a (truthy) global
binding; when the local binding is present it returns the
(local-name, LOCAL, predicate) triple, and when only the global binding is
present it returns the (global-name, GLOBAL, predicate) triple. -/
theorem C7_create_guard_no_guard_possible (c : Common) (fn : Nat) :
    (VariableTracker.create_guard c fn = Option.none ↔
      pyTruthy c.initial_name = false ∧ pyTruthy c.global_name = false) ∧
    (pyTruthy c.initial_name = true →
      VariableTracker.create_guard c fn =
        Option.some ⟨c.initial_name.getD "", GuardSource.LOCAL, fn⟩) ∧
    (pyTruthy c.initial_name = false → pyTruthy c.global_name = true →
      VariableTracker.create_guard c fn =
        Option.some ⟨c.global_name.getD "", GuardSource.GLOBAL, fn⟩) := by
  unfold VariableTracker.create_guard
  rcases hI : pyTruthy c.initial_name <;> rcases hG : pyTruthy c.global_name <;> simp [hI, hG]

/-- C7 witness: both branches and the failure case at concrete inputs. -/
theorem C7_create_guard_witness :
    VariableTracker.create_guard
        ⟨TracingSupported.UNKNOWN, ∅, Option.some "x", Option.some "g"⟩ 5 =
      Option.some ⟨"x", GuardSource.LOCAL, 5⟩ ∧
    VariableTracker.create_guard
        ⟨TracingSupported.UNKNOWN, ∅, Option.none, Option.some "g"⟩ 7 =
      Option.some ⟨"g", GuardSource.GLOBAL, 7⟩ ∧
    VariableTracker.create_guard
        ⟨TracingSupported.UNKNOWN, ∅, Option.none, Option.none⟩ 3 = Option.none :=
  ⟨(C7_create_guard_no_guard_possible
      ⟨TracingSupported.UNKNOWN, ∅, Option.some "x", Option.some "g"⟩ 5).2.1 (by decide),
   (C7_create_guard_no_guard_possible
      ⟨TracingSupported.UNKNOWN, ∅, Option.none, Option.some "g"⟩ 7).2.2 (by decide) (by decide),
   (C7_create_guard_no_guard_possible
      ⟨TracingSupported.UNKNOWN, ∅, Option.none, Option.none⟩ 3).1.mpr ⟨by decide, by decide⟩⟩

/-- C10: the local binding takes precedence — whenever the local source-name
binding is present (truthy), `create_guard` returns a LOCAL guard on the
local name regardless of the global binding; and a GLOBAL guard is ever
produced only when there is no truthy local binding. -/
theorem C10_local_binding_precedence (c : Common) (fn : Nat) :
    (∀ s, c.initial_name = Option.some s → s ≠ "" →
      VariableTracker.create_guard c fn = Option.some ⟨s, GuardSource.LOCAL, fn⟩) ∧
    (∀ g, VariableTracker.create_guard c fn = Option.some g →
      g.source = GuardSource.GLOBAL → pyTruthy c.initial_name = false) := by
  constructor
  · intro s hs hne
    unfold VariableTracker.create_guard
    simp [hs, pyTruthy, hne]
  · intro g hg hsrc
    rcases hI : pyTruthy c.initial_name with _ | _
    · rfl
    · exfalso
      unfold VariableTracker.create_guard at hg
      rw [hI] at hg
      simp at hg
      rw [← hg] at hsrc
      exact GuardSource.noConfusion hsrc

/-- C10 witness: with both a local and a global binding present, the result
is the LOCAL guard on the local name. -/
theorem C10_local_binding_precedence_witness :
    VariableTracker.create_guard
        ⟨TracingSupported.UNKNOWN, ∅, Option.some "loc", Option.some "glob"⟩ 2 =
      Option.some ⟨"loc", GuardSource.LOCAL, 2⟩ :=
  (C10_local_binding_precedence
      ⟨TracingSupported.UNKNOWN, ∅, Option.some "loc", Option.some "glob"⟩ 2).1
    "loc" rfl (by decide)

/-- The statically known attributes of a live tensor that
`TensorVariable.specialize` reads; the `dtype` and `device` objects are
represented by object identifiers. -/
structure TensorProps where
  dtypeId : Nat
  deviceId : Nat
  ndim : Nat
  size : List Int
  stride : List Int

/-- A value stored in the specialization property record. -/
inductive PropValue where
  | obj (objId : Nat) : PropValue
  | int (n : Int) : PropValue
  | tuple (xs : List Int) : PropValue
deriving DecidableEq

/-- `TensorVariable.specialize(value)`: always records `dtype`, `device` and
`ndim`; adds `size` and `stride` only when `config.dynamic_shapes` is false.
The configuration flag lives in the `torchdynamo.config` module (not among
the sources) and is passed explicitly. -/
def TensorVariable.specialize (dynamic_shapes : Bool) (value : TensorProps) :
    List (String × PropValue) :=
  let props := [("dtype", PropValue.obj value.dtypeId),
                ("device", PropValue.obj value.deviceId),
                ("ndim", PropValue.int (value.ndim : Int))]
  if !dynamic_shapes then
    props ++ [("size", PropValue.tuple value.size),
              ("stride", PropValue.tuple value.stride)]
  else
    props

/-- C9: the specialization record always contains the element type, device
tag and rank; it contains the shape and stride entries iff static-shape
specialization is enabled, i.e. iff `dynamic_shapes` is false. -/
theorem C9_specialize_static_shapes (flag : Bool) (t : TensorProps) :
    (TensorVariable.specialize flag t).lookup "dtype" =
      Option.some (PropValue.obj t.dtypeId) ∧
    (TensorVariable.specialize flag t).lookup "device" =
      Option.some (PropValue.obj t.deviceId) ∧
    (TensorVariable.specialize flag t).lookup "ndim" =
      Option.some (PropValue.int (t.ndim : Int)) ∧
    (flag = false →
      (TensorVariable.specialize flag t).lookup "size" =
        Option.some (PropValue.tuple t.size) ∧
      (TensorVariable.specialize flag t).lookup "stride" =
        Option.some (PropValue.tuple t.stride)) ∧
    (flag = true →
      (TensorVariable.specialize flag t).lookup "size" = Option.none ∧
      (TensorVariable.specialize flag t).lookup "stride" = Option.none) := by
  cases flag <;> simp [TensorVariable.specialize, List.lookup]

/-- C9 witness: both flag values at a concrete tensor. -/
theorem C9_specialize_witness :
    (TensorVariable.specialize false ⟨1, 2, 2, [4, 3], [3, 1]⟩).lookup "size" =
      Option.some (PropValue.tuple [4, 3]) ∧
    (TensorVariable.specialize true ⟨1, 2, 2, [4, 3], [3, 1]⟩).lookup "size" =
      Option.none :=
  ⟨((C9_specialize_static_shapes false ⟨1, 2, 2, [4, 3], [3, 1]⟩).2.2.2.1 rfl).1,
   ((C9_specialize_static_shapes true ⟨1, 2, 2, [4, 3], [3, 1]⟩).2.2.2.2 rfl).1⟩

/-- The signal raised out of a trace step.  `StopIteration` is the Python
iterator-exhaustion signal raised by `next_variables`.  `GraphBreak` is
modelled from the spec: the condition that aborts a trace attempt (the
symbolic interpreter that raises it is not among the sources); it is listed
so that distinctness of the two conditions can be stated. -/
inductive TraceSignal where
  | StopIteration : TraceSignal
  | GraphBreak : TraceSignal
deriving DecidableEq

/-- `ListIteratorVariable.next_variables(self)`, on an iterator with fields
`items`, `index` and common record `c`.  The result pairs the
raised-or-returned value with the post-call state of the object: on a
non-exhausted iterator the method reads `items[index]`, increments the
cursor and clears `initial_name`, returning `(item, self)`; on an exhausted
iterator it raises StopIteration before writing any field, so the object is
unchanged.  Per the source comment, this is the only in-place mutation in
the module; every other operation here is a pure `clone`. -/
def ListIteratorVariable.next_variables (items : List VariableTracker)
    (index : Nat) (c : Common) :
    Except TraceSignal VariableTracker × VariableTracker :=
  if h : index < items.length then
    (Except.ok (items.get ⟨index, h⟩),
     VariableTracker.ListIteratorVariable items (index + 1)
       ⟨c.state, c.guards, Option.none, c.global_name⟩)
  else
    (Except.error TraceSignal.StopIteration,
     VariableTracker.ListIteratorVariable items index c)

/-- Advancing a sequence iterator `n` times, collecting the emitted items and
the final iterator state; stops early on exhaustion or on a non-iterator. -/
def advanceN : Nat → VariableTracker → List VariableTracker × VariableTracker
  | 0, it => ([], it)
  | Nat.succ n, it =>
    match it with
    | VariableTracker.ListIteratorVariable items index c =>
      match ListIteratorVariable.next_variables items index c with
      | (Except.ok item, it2) =>
        let r := advanceN n it2
        (item :: r.1, r.2)
      | (Except.error _, it2) => ([], it2)
    | _ => ([], it)

theorem advanceN_emits (n : Nat) :
    ∀ (items : List VariableTracker) (index : Nat) (c : Common),
      index + n ≤ items.length →
      (advanceN n (VariableTracker.ListIteratorVariable items index c)).1 =
        (items.drop index).take n := by
  induction n with
  | zero => intro items index c _; simp [advanceN]
  | succ n ih =>
    intro items index c hle
    have h : index < items.length := by omega
    have hnext : ListIteratorVariable.next_variables items index c =
        (Except.ok (items.get ⟨index, h⟩),
         VariableTracker.ListIteratorVariable items (index + 1)
           ⟨c.state, c.guards, Option.none, c.global_name⟩) := by
      unfold ListIteratorVariable.next_variables
      rw [dif_pos h]
    have hdrop : items.drop index = items.get ⟨index, h⟩ :: items.drop (index + 1) := by
      rw [List.drop_eq_getElem_cons h]
      simp
    rw [show advanceN (Nat.succ n) (VariableTracker.ListIteratorVariable items index c) =
          (items.get ⟨index, h⟩ ::
            (advanceN n (VariableTracker.ListIteratorVariable items (index + 1)
              ⟨c.state, c.guards, Option.none, c.global_name⟩)).1,
           (advanceN n (VariableTracker.ListIteratorVariable items (index + 1)
              ⟨c.state, c.guards, Option.none, c.global_name⟩)).2) by
        simp [advanceN, hnext]]
    rw [hdrop, List.take_succ_cons]
    rw [ih items (index + 1) ⟨c.state, c.guards, Option.none, c.global_name⟩ (by omega)]

/-- C5: advancing a non-exhausted sequence iterator emits the item at the
current cursor, increments the cursor by exactly one and invalidates the
source-name binding (sets it to `None`), leaving the stored items and all
other fields unchanged; advancing a fresh iterator `n ≤ length` times emits
exactly the first `n` stored items in order.  (This is the sole in-place
mutation in the value model; every other operation in this file is a pure
function of its input, mirroring the clone-based immutability of the
source.) -/
theorem C5_iterator_advance (items : List VariableTracker) (index : Nat)
    (c : Common) (h : index < items.length) :
    ListIteratorVariable.next_variables items index c =
      (Except.ok (items.get ⟨index, h⟩),
       VariableTracker.ListIteratorVariable items (index + 1)
         ⟨c.state, c.guards, Option.none, c.global_name⟩) ∧
    (∀ n, n ≤ items.length →
      (advanceN n (VariableTracker.ListIteratorVariable items 0 c)).1 =
        items.take n) := by
  constructor
  · unfold ListIteratorVariable.next_variables
    rw [dif_pos h]
  · intro n hn
    have := advanceN_emits n items 0 c (by omega)
    simpa using this

/-- C5 witness: a concrete two-element iterator advanced once and twice. -/
theorem C5_iterator_advance_witness :
    ListIteratorVariable.next_variables
        [VariableTracker.UnknownVariable Common.default,
         VariableTracker.NNModuleVariable "m" Common.default] 0 Common.default =
      (Except.ok (VariableTracker.UnknownVariable Common.default),
       VariableTracker.ListIteratorVariable
         [VariableTracker.UnknownVariable Common.default,
          VariableTracker.NNModuleVariable "m" Common.default] 1
         ⟨TracingSupported.UNKNOWN, ∅, Option.none, Option.none⟩) ∧
    (advanceN 2 (VariableTracker.ListIteratorVariable
        [VariableTracker.UnknownVariable Common.default,
         VariableTracker.NNModuleVariable "m" Common.default] 0 Common.default)).1 =
      [VariableTracker.UnknownVariable Common.default,
       VariableTracker.NNModuleVariable "m" Common.default] :=
  ⟨(C5_iterator_advance
      [VariableTracker.UnknownVariable Common.default,
       VariableTracker.NNModuleVariable "m" Common.default] 0 Common.default
      (by decide)).1,
   (C5_iterator_advance
      [VariableTracker.UnknownVariable Common.default,
       VariableTracker.NNModuleVariable "m" Common.default] 0 Common.default
      (by decide)).2 2 (by decide)⟩

/-- C8: on an iterator whose cursor is at or past the end of its stored
items, `next_variables` raises StopIteration — a signal distinct from a
graph break — and the exhaustion check happens before any field write, so
the cursor, the stored items and the source-name binding are all unchanged. -/
theorem C8_iterator_exhaustion (items : List VariableTracker) (index : Nat)
    (c : Common) (h : items.length ≤ index) :
    ListIteratorVariable.next_variables items index c =
      (Except.error TraceSignal.StopIteration,
       VariableTracker.ListIteratorVariable items index c) ∧
    TraceSignal.StopIteration ≠ TraceSignal.GraphBreak := by
  constructor
  · unfold ListIteratorVariable.next_variables
    rw [dif_neg (by omega)]
  · decide

/-- C8 witness: an exhausted concrete iterator. -/
theorem C8_iterator_exhaustion_witness :
    ListIteratorVariable.next_variables
        [VariableTracker.UnknownVariable Common.default] 1 Common.default =
      (Except.error TraceSignal.StopIteration,
       VariableTracker.ListIteratorVariable
         [VariableTracker.UnknownVariable Common.default] 1 Common.default) :=
  (C8_iterator_exhaustion [VariableTracker.UnknownVariable Common.default] 1
    Common.default (by decide)).1

/-- A Python constant as returned by `as_python_constant`: either a literal,
or the slice object built by `SliceVariable.as_python_constant`
(`slice(*args)`, normalized to its start/stop/step components, missing
positions defaulting to `None`). -/
inductive PyConst where
  | lit (v : PyLit) : PyConst
  | sliceC (start stop step : PyLit) : PyConst

/-- `slice(*args)`: accepts one to three positional arguments. -/
def pySliceOfArgs : List PyLit → Option PyConst
  | [a] => Option.some (PyConst.sliceC PyLit.pynone a PyLit.pynone)
  | [a, b] => Option.some (PyConst.sliceC a b PyLit.pynone)
  | [a, b, c] => Option.some (PyConst.sliceC a b c)
  | _ => Option.none

mutual

/-- `as_python_constant`: `ConstantVariable` returns its wrapped literal;
`BaseListVariable` builds `python_type()([item constants])` (a list, tuple or
`slice(*args)`); every other variant inherits the base method, which raises
("NotConstant"), modelled as `none`.  Container results are representable
only when every item constant is a literal (a slice nested inside a list is
outside the literal universe and is also mapped to `none`). -/
def VariableTracker.as_python_constant : VariableTracker → Option PyConst
  | VariableTracker.ConstantVariable v _ => Option.some (PyConst.lit v)
  | VariableTracker.BaseListVariable ListKind.list items _ =>
    (asConstLits items).map (fun ls => PyConst.lit (PyLit.list ls))
  | VariableTracker.BaseListVariable ListKind.tuple items _ =>
    (asConstLits items).map (fun ls => PyConst.lit (PyLit.tuple ls))
  | VariableTracker.BaseListVariable ListKind.slice items _ =>
    (asConstLits items).bind pySliceOfArgs
  | _ => Option.none

/-- `[x.as_python_constant() for x in items]`, succeeding when every item is
a literal constant. -/
def asConstLits : List VariableTracker → Option (List PyLit)
  | [] => Option.some []
  | v :: vs =>
    match VariableTracker.as_python_constant v with
    | Option.some (PyConst.lit l) => (asConstLits vs).map (fun ls => l :: ls)
    | _ => Option.none

end

/-- Python `==` on `as_python_constant` results: slices compare by their
(start, stop, step) components, a slice is never `==` to a literal. -/
def pyEqConst : PyConst → PyConst → Bool
  | PyConst.lit a, PyConst.lit b => pyEq a b
  | PyConst.sliceC a b c, PyConst.sliceC d e f => pyEq a d && pyEq b e && pyEq c f
  | _, _ => false

/-- `clone(guards=g)`: shallow copy with the guard set replaced; every
variant keeps its own fields and the rest of the common record. -/
def VariableTracker.setGuards : VariableTracker → Finset Guard → VariableTracker
  | VariableTracker.ConstantVariable v c, g =>
    VariableTracker.ConstantVariable v ⟨c.state, g, c.initial_name, c.global_name⟩
  | VariableTracker.BaseListVariable k items c, g =>
    VariableTracker.BaseListVariable k items ⟨c.state, g, c.initial_name, c.global_name⟩
  | VariableTracker.ConstDictVariable items c, g =>
    VariableTracker.ConstDictVariable items ⟨c.state, g, c.initial_name, c.global_name⟩
  | VariableTracker.ListIteratorVariable items i c, g =>
    VariableTracker.ListIteratorVariable items i ⟨c.state, g, c.initial_name, c.global_name⟩
  | VariableTracker.GetAttrVariable o n c, g =>
    VariableTracker.GetAttrVariable o n ⟨c.state, g, c.initial_name, c.global_name⟩
  | VariableTracker.NNModuleVariable k c, g =>
    VariableTracker.NNModuleVariable k ⟨c.state, g, c.initial_name, c.global_name⟩
  | VariableTracker.TensorVariable p c, g =>
    VariableTracker.TensorVariable p ⟨c.state, g, c.initial_name, c.global_name⟩
  | VariableTracker.UnsupportedVariable v t c, g =>
    VariableTracker.UnsupportedVariable v t ⟨c.state, g, c.initial_name, c.global_name⟩
  | VariableTracker.UnknownVariable c, g =>
    VariableTracker.UnknownVariable ⟨c.state, g, c.initial_name, c.global_name⟩

/-- `add_guards(self, guards) = clone(guards=set.union(self.guards, guards))`. -/
def VariableTracker.add_guards (v : VariableTracker) (gs : Finset Guard) : VariableTracker :=
  v.setGuards (v.guards ∪ gs)

/-- `add_guard(self, guard) = clone(guards=set.union(self.guards, {guard}))`. -/
def VariableTracker.add_guard (v : VariableTracker) (g : Guard) : VariableTracker :=
  v.setGuards (v.guards ∪ {g})

theorem setGuards_guards (v : VariableTracker) (gs : Finset Guard) :
    (v.setGuards gs).guards = gs := by
  cases v <;> rfl

theorem add_guards_guards (v : VariableTracker) (gs : Finset Guard) :
    (v.add_guards gs).guards = v.guards ∪ gs := by
  cases v <;> rfl

/-- Python indexing of a sequence by an `int`: negative indices count from
the end; out-of-range raises IndexError (`none`). -/
def pyIndexList {α : Type} (xs : List α) (i : Int) : Option α :=
  let j : Int := if i < 0 then i + xs.length else i
  if h : 0 ≤ j ∧ j < xs.length then xs.get ⟨j.toNat, by omega⟩ else Option.none

/-- Interpreting a literal as a Python index: `bool` is an `int` subtype, so
`isinstance(index, int)` accepts it; anything else fails the check. -/
def pyAsIndex : PyLit → Option Int
  | PyLit.int n => Option.some n
  | PyLit.bool b => Option.some (if b then 1 else 0)
  | _ => Option.none

/-- A usable slice component: `None` or an `int` (with `bool` as an int);
any other type raises TypeError when the slice is applied. -/
def sliceComp : PyLit → Option (Option Int)
  | PyLit.pynone => Option.some Option.none
  | PyLit.int n => Option.some (Option.some n)
  | PyLit.bool b => Option.some (Option.some (if b then 1 else 0))
  | _ => Option.none

/-- CPython's index adjustment for slice bounds over a sequence of length
`n`: negative values count from the end, then both ends are clamped. -/
def adjustIndex (n step x : Int) : Int :=
  if x < 0 then
    let y := x + n
    if y < 0 then (if step < 0 then -1 else 0) else y
  else if n ≤ x then (if step < 0 then n - 1 else n) else x

/-- The element positions selected by `[start:stop:step]` on a sequence of
length `n`, following CPython's `PySlice_GetIndicesEx`: a zero step raises
ValueError (`none`); otherwise the positions are
`start, start+step, ...` while strictly before (after, for negative step)
the adjusted stop. -/
def sliceIndices (n : Nat) (ostart ostop ostep : Option Int) : Option (List Nat) :=
  let step := ostep.getD 1
  if step = 0 then Option.none
  else
    let ni : Int := (n : Int)
    let start := match ostart with
      | Option.some s => adjustIndex ni step s
      | Option.none => if step < 0 then ni - 1 else 0
    let stop := match ostop with
      | Option.some s => adjustIndex ni step s
      | Option.none => if step < 0 then -1 else ni
    let count : Int :=
      if 0 < step then (stop - start + step - 1) / step
      else (start - stop - step - 1) / (-step)
    Option.some ((List.range count.toNat).map (fun k => (start + k * step).toNat))

/-- `self.items[index]` for a slice object `index`. -/
def pySliceList {α : Type} (xs : List α) (oa ob ost : Option Int) : Option (List α) :=
  (sliceIndices xs.length oa ob ost).map (fun idxs => idxs.filterMap (fun i => xs[i]?))

/-- `BaseListVariable.getitem_const(self, arg)`: for a slice constant,
`clone(items=self.items[index]).add_guards(arg.guards)`; for an int
constant, `self.items[index].add_guards(self.guards).add_guards(arg.guards)`;
a non-int non-slice constant fails the `isinstance` assertion and a
non-constant `arg` raises NotConstant, both modelled as `none`. -/
def BaseListVariable.getitem_const : VariableTracker → VariableTracker → Option VariableTracker
  | VariableTracker.BaseListVariable kind items c, arg =>
    match VariableTracker.as_python_constant arg with
    | Option.some (PyConst.sliceC a b st) =>
      match sliceComp a, sliceComp b, sliceComp st with
      | Option.some oa, Option.some ob, Option.some ost =>
        match pySliceList items oa ob ost with
        | Option.some sliced =>
          Option.some
            ((VariableTracker.BaseListVariable kind sliced c).add_guards arg.guards)
        | Option.none => Option.none
      | _, _, _ => Option.none
    | Option.some (PyConst.lit l) =>
      match pyAsIndex l with
      | Option.some i =>
        match pyIndexList items i with
        | Option.some item =>
          Option.some ((item.add_guards c.guards).add_guards arg.guards)
        | Option.none => Option.none
      | Option.none => Option.none
    | Option.none => Option.none
  | _, _ => Option.none

/-- `self.value[key]` on a literal: sequences support int indexing and
slicing; a string index yields a one-character string; any other
combination raises (`TypeError`). -/
def pyGetitem (v : PyLit) (idx : PyConst) : Option PyLit :=
  match v, idx with
  | PyLit.list xs, PyConst.lit l => (pyAsIndex l).bind (pyIndexList xs)
  | PyLit.tuple xs, PyConst.lit l => (pyAsIndex l).bind (pyIndexList xs)
  | PyLit.str s, PyConst.lit l =>
    (pyAsIndex l).bind (fun i =>
      (pyIndexList s.data i).map (fun ch => PyLit.str (String.mk [ch])))
  | PyLit.list xs, PyConst.sliceC a b st =>
    match sliceComp a, sliceComp b, sliceComp st with
    | Option.some oa, Option.some ob, Option.some ost =>
      (pySliceList xs oa ob ost).map PyLit.list
    | _, _, _ => Option.none
  | PyLit.tuple xs, PyConst.sliceC a b st =>
    match sliceComp a, sliceComp b, sliceComp st with
    | Option.some oa, Option.some ob, Option.some ost =>
      (pySliceList xs oa ob ost).map PyLit.tuple
    | _, _, _ => Option.none
  | PyLit.str s, PyConst.sliceC a b st =>
    match sliceComp a, sliceComp b, sliceComp st with
    | Option.some oa, Option.some ob, Option.some ost =>
      (pySliceList s.data oa ob ost).map (fun cs => PyLit.str (String.mk cs))
    | _, _, _ => Option.none
  | _, _ => Option.none

/-- `ConstantVariable.getitem_const(self, arg) =
ConstantVariable(self.value[arg.as_python_constant()],
**VariableTracker.propagate([self, arg]))`. -/
def ConstantVariable.getitem_const : VariableTracker → VariableTracker → Option VariableTracker
  | VariableTracker.ConstantVariable v c, arg =>
    match VariableTracker.as_python_constant arg with
    | Option.some pc =>
      match pyGetitem v pc with
      | Option.some res =>
        Option.some (VariableTracker.ConstantVariable res
          (applyOptions (VariableTracker.propagate
            [VariableTracker.ConstantVariable v c, arg])))
      | Option.none => Option.none
    | Option.none => Option.none
  | _, _ => Option.none

theorem guards_acc_subset_foldl_union (l : List (Finset Guard)) (acc : Finset Guard) :
    acc ⊆ l.foldl (· ∪ ·) acc := by
  induction l generalizing acc with
  | nil => exact Finset.Subset.refl acc
  | cons x l ih =>
    exact Finset.Subset.trans Finset.subset_union_left (ih (acc ∪ x))

theorem guards_mem_subset_foldl_union (l : List (Finset Guard)) (acc x : Finset Guard)
    (hx : x ∈ l) : x ⊆ l.foldl (· ∪ ·) acc := by
  induction l generalizing acc with
  | nil => cases hx
  | cons y l ih =>
    rcases List.mem_cons.mp hx with rfl | hx
    · exact Finset.Subset.trans Finset.subset_union_right
        (guards_acc_subset_foldl_union l (acc ∪ x))
    · exact ih (acc ∪ y) hx

/-- C3: no composition drops a guard.  (a) For every non-empty operand list,
each operand's guard set is contained in the `guards` component of
`propagate`; (b) indexing or slicing a list/tuple/slice value by a constant
(`BaseListVariable.getitem_const`) yields a value whose guard set contains
the union of both operands' guard sets; (c) likewise for indexing a constant
value (`ConstantVariable.getitem_const`). -/
theorem C3_guard_monotonicity (v : VariableTracker) (vs : List VariableTracker)
    (self arg r1 r2 : VariableTracker) :
    (∀ u ∈ v :: vs, u.guards ⊆ propagateGuards (v :: vs)) ∧
    (BaseListVariable.getitem_const self arg = Option.some r1 →
      self.guards ∪ arg.guards ⊆ r1.guards) ∧
    (ConstantVariable.getitem_const self arg = Option.some r2 →
      self.guards ∪ arg.guards ⊆ r2.guards) := by
  refine ⟨?_, ?_, ?_⟩
  · intro u hu
    have hpg : propagateGuards (v :: vs) =
        (vs.map VariableTracker.guards).foldl (· ∪ ·) v.guards := rfl
    rw [hpg]
    rcases List.mem_cons.mp hu with rfl | hu
    · exact guards_acc_subset_foldl_union _ _
    · exact guards_mem_subset_foldl_union _ _ _ (List.mem_map.mpr ⟨u, hu, rfl⟩)
  · intro h
    cases self with
    | BaseListVariable kind items c =>
      simp only [BaseListVariable.getitem_const] at h
      split at h
      · -- slice constant: match on the three components
        split at h
        · -- usable components: match on pySliceList
          split at h
          · have hr := Option.some.inj h
            subst hr
            rw [add_guards_guards]
            exact Finset.union_subset_union (Finset.Subset.refl _) (Finset.Subset.refl _)
          · exact Option.noConfusion h
        · exact Option.noConfusion h
      · -- int constant: match on pyAsIndex, then on the list access
        split at h
        · split at h
          · have hr := Option.some.inj h
            subst hr
            rw [add_guards_guards, add_guards_guards]
            apply Finset.union_subset
            · exact Finset.Subset.trans Finset.subset_union_right Finset.subset_union_left
            · exact Finset.subset_union_right
          · exact Option.noConfusion h
        · exact Option.noConfusion h
      · exact Option.noConfusion h
    | ConstantVariable a b => exact Option.noConfusion h
    | ConstDictVariable a b => exact Option.noConfusion h
    | ListIteratorVariable a b c => exact Option.noConfusion h
    | GetAttrVariable a b c => exact Option.noConfusion h
    | NNModuleVariable a b => exact Option.noConfusion h
    | TensorVariable a b => exact Option.noConfusion h
    | UnsupportedVariable a b c => exact Option.noConfusion h
    | UnknownVariable a => exact Option.noConfusion h
  · intro h
    cases self with
    | ConstantVariable val c =>
      simp only [ConstantVariable.getitem_const] at h
      split at h
      · split at h
        · have hr := Option.some.inj h
          subst hr
          exact Finset.Subset.refl _
        · exact Option.noConfusion h
      · exact Option.noConfusion h
    | BaseListVariable a b c => exact Option.noConfusion h
    | ConstDictVariable a b => exact Option.noConfusion h
    | ListIteratorVariable a b c => exact Option.noConfusion h
    | GetAttrVariable a b c => exact Option.noConfusion h
    | NNModuleVariable a b => exact Option.noConfusion h
    | TensorVariable a b => exact Option.noConfusion h
    | UnsupportedVariable a b c => exact Option.noConfusion h
    | UnknownVariable a => exact Option.noConfusion h

/-- Concrete guard for witnesses. -/
def gA : Guard := ⟨"a", GuardSource.LOCAL, 0⟩

/-- Concrete guard for witnesses. -/
def gB : Guard := ⟨"b", GuardSource.GLOBAL, 1⟩

/-- Concrete list value `[7]` carrying guard `gA`. -/
def selfListW : VariableTracker :=
  VariableTracker.BaseListVariable ListKind.list
    [VariableTracker.ConstantVariable (PyLit.int 7) Common.default]
    ⟨TracingSupported.UNKNOWN, {gA}, Option.none, Option.none⟩

/-- Concrete constant index `0` carrying guard `gB`. -/
def argIdxW : VariableTracker :=
  VariableTracker.ConstantVariable (PyLit.int 0)
    ⟨TracingSupported.UNKNOWN, {gB}, Option.none, Option.none⟩

/-- Concrete constant string `"ab"` carrying guard `gA`. -/
def selfConstW : VariableTracker :=
  VariableTracker.ConstantVariable (PyLit.str "ab")
    ⟨TracingSupported.UNKNOWN, {gA}, Option.none, Option.none⟩

/-- C3 witness: at concrete inputs, the operand guard is inside the
propagated guard set, and both indexing operations keep both operands'
guards. -/
theorem C3_guard_monotonicity_witness :
    (VariableTracker.guards argIdxW ⊆ propagateGuards [selfListW, argIdxW]) ∧
    (VariableTracker.guards selfListW ∪ VariableTracker.guards argIdxW ⊆
      VariableTracker.guards
        ((VariableTracker.add_guards
          (VariableTracker.add_guards
            (VariableTracker.ConstantVariable (PyLit.int 7) Common.default) {gA})
          {gB}))) ∧
    (VariableTracker.guards selfConstW ∪ VariableTracker.guards argIdxW ⊆
      VariableTracker.guards
        (VariableTracker.ConstantVariable (PyLit.str (String.mk ['a']))
          (applyOptions (VariableTracker.propagate [selfConstW, argIdxW])))) :=
  ⟨(C3_guard_monotonicity selfListW [argIdxW] selfListW argIdxW selfListW selfListW).1
      argIdxW (List.mem_cons_of_mem _ (List.mem_cons_self _ _)),
   (C3_guard_monotonicity selfListW [] selfListW argIdxW
      ((VariableTracker.add_guards
        (VariableTracker.add_guards
          (VariableTracker.ConstantVariable (PyLit.int 7) Common.default) {gA})
        {gB})) selfListW).2.1 rfl,
   (C3_guard_monotonicity selfListW [] selfConstW argIdxW selfListW
      (VariableTracker.ConstantVariable (PyLit.str (String.mk ['a']))
        (applyOptions (VariableTracker.propagate [selfConstW, argIdxW])))).2.2 rfl⟩

/-- The class object returned by the base `VariableTracker.get_key` for the
modelled variants that do not override the method. -/
inductive BaseClsTag where
  | tensorCls : BaseClsTag
  | unknownCls : BaseClsTag
deriving DecidableEq

/-- The structural identity keys returned by `get_key`: each overriding
variant contributes its class plus salient content (the class is the key
constructor here); variants without an override return just the class
object.  `id(...)`-keyed components are represented by the identifier of the
referenced object (equal identifiers = same live object). -/
inductive VKey where
  | cls (tag : BaseClsTag) : VKey
  | constantK (value : PyLit) : VKey
  | nnModuleK (module_key : String) : VKey
  | listIterK (index : Nat) (items : List VKey) : VKey
  | getAttrK (name : String) (obj : VKey) : VKey
  | baseListK (kind : ListKind) (items : List VKey) : VKey
  | constDictK (items : List (String × VKey)) : VKey
  | unsupportedK (valueTypeId : Nat) : VKey

mutual

/-- Python `==` on identity keys: tuples compare elementwise, classes by
identity, `ConstantVariable` content by Python `==` on the wrapped literal
(so `True` and `1` compare equal). -/
def keyEq : VKey → VKey → Bool
  | VKey.cls a, VKey.cls b => decide (a = b)
  | VKey.constantK a, VKey.constantK b => pyEq a b
  | VKey.nnModuleK a, VKey.nnModuleK b => a == b
  | VKey.listIterK i1 l1, VKey.listIterK i2 l2 => i1 == i2 && keyEqList l1 l2
  | VKey.getAttrK n1 o1, VKey.getAttrK n2 o2 => n1 == n2 && keyEq o1 o2
  | VKey.baseListK k1 l1, VKey.baseListK k2 l2 => decide (k1 = k2) && keyEqList l1 l2
  | VKey.constDictK l1, VKey.constDictK l2 => keyEqDict l1 l2
  | VKey.unsupportedK t1, VKey.unsupportedK t2 => t1 == t2
  | _, _ => false

/-- Elementwise key equality on key tuples. -/
def keyEqList : List VKey → List VKey → Bool
  | [], [] => true
  | x :: xs, y :: ys => keyEq x y && keyEqList xs ys
  | _, _ => false

/-- Elementwise equality on (dict-key, identity-key) tuples. -/
def keyEqDict : List (String × VKey) → List (String × VKey) → Bool
  | [], [] => true
  | (k1, v1) :: xs, (k2, v2) :: ys => k1 == k2 && keyEq v1 v2 && keyEqDict xs ys
  | _, _ => false

end

/-- Ordering of association-list entries by their string key, used for the
`sorted(...)` calls on dict keys. -/
def fstLe {α : Type} (a b : String × α) : Prop := a.1 ≤ b.1

instance instDecFstLe {α : Type} : DecidableRel (@fstLe α) :=
  fun a b => inferInstanceAs (Decidable (a.1 ≤ b.1))

mutual

/-- `get_key` for each variant as defined in the source:
`ConstantVariable → (cls, value)`; `BaseListVariable → (cls, tuple of item
keys)`; `ConstDictVariable → (cls, tuple of (k, item key) for k in
sorted(keys))` (the sort compares only the string keys, so sorting the keyed
results equals keying the sorted entries); `ListIteratorVariable → (cls,
id(index), tuple of item keys)`; `GetAttrVariable → (cls, name,
obj.get_key())`; `NNModuleVariable → (cls, module_key)`;
`UnsupportedVariable → (cls, id(value_type))`; `TensorVariable` and
`UnknownVariable` inherit the base method returning `self.__class__`. -/
def VariableTracker.get_key : VariableTracker → VKey
  | VariableTracker.ConstantVariable v _ => VKey.constantK v
  | VariableTracker.BaseListVariable kind items _ => VKey.baseListK kind (keysOf items)
  | VariableTracker.ConstDictVariable items _ =>
    VKey.constDictK (List.insertionSort fstLe (keysOfDict items))
  | VariableTracker.ListIteratorVariable items index _ => VKey.listIterK index (keysOf items)
  | VariableTracker.GetAttrVariable obj name _ => VKey.getAttrK name (VariableTracker.get_key obj)
  | VariableTracker.NNModuleVariable k _ => VKey.nnModuleK k
  | VariableTracker.TensorVariable _ _ => VKey.cls BaseClsTag.tensorCls
  | VariableTracker.UnsupportedVariable _ t _ => VKey.unsupportedK t
  | VariableTracker.UnknownVariable _ => VKey.cls BaseClsTag.unknownCls

/-- `tuple(v.get_key() for v in items)`. -/
def keysOf : List VariableTracker → List VKey
  | [] => []
  | v :: vs => VariableTracker.get_key v :: keysOf vs

/-- `(k, items[k].get_key())` for each entry. -/
def keysOfDict : List (String × VariableTracker) → List (String × VKey)
  | [] => []
  | (k, v) :: rest => (k, VariableTracker.get_key v) :: keysOfDict rest

end

/-- The runtime types returned by `python_type`; host types (`value_type` of
an unsupported value) are represented by the type object's identifier. -/
inductive PyType where
  | boolT : PyType
  | intT : PyType
  | strT : PyType
  | noneT : PyType
  | listT : PyType
  | tupleT : PyType
  | sliceT : PyType
  | dictT : PyType
  | moduleT : PyType
  | tensorT : PyType
  | byId (n : Nat) : PyType
deriving DecidableEq

/-- `type(value)` for a literal. -/
def litType : PyLit → PyType
  | PyLit.pynone => PyType.noneT
  | PyLit.bool _ => PyType.boolT
  | PyLit.int _ => PyType.intT
  | PyLit.str _ => PyType.strT
  | PyLit.list _ => PyType.listT
  | PyLit.tuple _ => PyType.tupleT

/-- `python_type()` per variant; the base method raises
`NotImplementedError`, modelled as `none` (`ListIteratorVariable`,
`GetAttrVariable`, `UnknownVariable`). -/
def VariableTracker.python_type : VariableTracker → Option PyType
  | VariableTracker.ConstantVariable v _ => Option.some (litType v)
  | VariableTracker.BaseListVariable ListKind.list _ _ => Option.some PyType.listT
  | VariableTracker.BaseListVariable ListKind.tuple _ _ => Option.some PyType.tupleT
  | VariableTracker.BaseListVariable ListKind.slice _ _ => Option.some PyType.sliceT
  | VariableTracker.ConstDictVariable _ _ => Option.some PyType.dictT
  | VariableTracker.NNModuleVariable _ _ => Option.some PyType.moduleT
  | VariableTracker.TensorVariable _ _ => Option.some PyType.tensorT
  | VariableTracker.UnsupportedVariable _ t _ => Option.some (PyType.byId t)
  | _ => Option.none

/-- Python `==` lifted to optional constants (`none` = extraction raised). -/
def pyEqOptConst : Option PyConst → Option PyConst → Bool
  | Option.none, Option.none => true
  | Option.some a, Option.some b => pyEqConst a b
  | _, _ => false

/-- Python `==` lifted to optional literal lists. -/
def optEqLits : Option (List PyLit) → Option (List PyLit) → Bool
  | Option.none, Option.none => true
  | Option.some a, Option.some b => pyEqList a b
  | _, _ => false

theorem vt_sizeOf_pos (a : VariableTracker) : 0 < sizeOf a := by
  cases a <;> simp_arith

theorem pyEqList_slice_congr (l1 l2 : List PyLit) (h : pyEqList l1 l2 = true) :
    pyEqOptConst (pySliceOfArgs l1) (pySliceOfArgs l2) = true := by
  rcases l1 with _ | ⟨a1, _ | ⟨b1, _ | ⟨c1, _ | ⟨d1, r1⟩⟩⟩⟩ <;>
    rcases l2 with _ | ⟨a2, _ | ⟨b2, _ | ⟨c2, _ | ⟨d2, r2⟩⟩⟩⟩ <;>
      simp_all [pyEqList, pySliceOfArgs, pyEqOptConst, pyEqConst, pyEq]

theorem keyEq_const_shape (k1 k2 : VKey) (h : keyEq k1 k2 = true) :
    ((∃ v1, k1 = VKey.constantK v1) ↔ (∃ v2, k2 = VKey.constantK v2)) ∧
    (∀ v1 v2, k1 = VKey.constantK v1 → k2 = VKey.constantK v2 → pyEq v1 v2 = true) := by
  cases k1 <;> cases k2 <;> simp_all [keyEq]

theorem keyEq_baselist_shape (k1 k2 : VKey) (h : keyEq k1 k2 = true) :
    (∀ kd l1, k1 = VKey.baseListK kd l1 →
      ∃ l2, k2 = VKey.baseListK kd l2 ∧ keyEqList l1 l2 = true) ∧
    (∀ kd l2, k2 = VKey.baseListK kd l2 → ∃ l1, k1 = VKey.baseListK kd l1) := by
  cases k1 <;> cases k2 <;> simp_all [keyEq]

theorem get_key_eq_constantK (b : VariableTracker) (v : PyLit)
    (h : VariableTracker.get_key b = VKey.constantK v) :
    ∃ c, b = VariableTracker.ConstantVariable v c := by
  cases b <;> simp_all [VariableTracker.get_key]

theorem get_key_eq_baseListK (b : VariableTracker) (kd : ListKind) (l : List VKey)
    (h : VariableTracker.get_key b = VKey.baseListK kd l) :
    ∃ items c, b = VariableTracker.BaseListVariable kd items c ∧ l = keysOf items := by
  cases b <;> simp_all [VariableTracker.get_key]

theorem apc_none_of_keys (b : VariableTracker)
    (hc : ∀ v, VariableTracker.get_key b ≠ VKey.constantK v)
    (hl : ∀ k l, VariableTracker.get_key b ≠ VKey.baseListK k l) :
    VariableTracker.as_python_constant b = Option.none := by
  cases b with
  | ConstantVariable v c => exact absurd rfl (hc v)
  | BaseListVariable k items c => exact absurd rfl (hl k (keysOf items))
  | ConstDictVariable a c => rfl
  | ListIteratorVariable a i c => rfl
  | GetAttrVariable o nm c => rfl
  | NNModuleVariable k c => rfl
  | TensorVariable p c => rfl
  | UnsupportedVariable x t c => rfl
  | UnknownVariable c => rfl

theorem key_sound_trivial (a b : VariableTracker)
    (hkey : keyEq (VariableTracker.get_key a) (VariableTracker.get_key b) = true)
    (hnc : ∀ v, VariableTracker.get_key a ≠ VKey.constantK v)
    (hnl : ∀ kd l, VariableTracker.get_key a ≠ VKey.baseListK kd l) :
    pyEqOptConst (VariableTracker.as_python_constant a)
      (VariableTracker.as_python_constant b) = true := by
  have ha := apc_none_of_keys a hnc hnl
  have hbc : ∀ v, VariableTracker.get_key b ≠ VKey.constantK v := by
    intro v hv
    obtain ⟨v1, hv1⟩ := (keyEq_const_shape _ _ hkey).1.mpr ⟨v, hv⟩
    exact hnc v1 hv1
  have hbl : ∀ kd l, VariableTracker.get_key b ≠ VKey.baseListK kd l := by
    intro kd l hv
    obtain ⟨l1, hl1⟩ := (keyEq_baselist_shape _ _ hkey).2 kd l hv
    exact hnl kd l1 hl1
  have hb := apc_none_of_keys b hbc hbl
  rw [ha, hb]
  rfl

theorem optEqLits_map_lit (f : List PyLit → PyLit)
    (hf : ∀ a b, pyEqList a b = true → pyEq (f a) (f b) = true)
    (o1 o2 : Option (List PyLit)) (h : optEqLits o1 o2 = true) :
    pyEqOptConst (o1.map (fun ls => PyConst.lit (f ls)))
      (o2.map (fun ls => PyConst.lit (f ls))) = true := by
  cases o1 <;> cases o2 <;> simp_all [optEqLits, pyEqOptConst, pyEqConst]

theorem optEqLits_bind_slice (o1 o2 : Option (List PyLit)) (h : optEqLits o1 o2 = true) :
    pyEqOptConst (o1.bind pySliceOfArgs) (o2.bind pySliceOfArgs) = true := by
  cases o1 <;> cases o2 <;> simp_all [optEqLits, pyEqOptConst]
  exact pyEqList_slice_congr _ _ h

theorem asConstLits_congr (n : Nat)
    (rec : ∀ a b : VariableTracker, sizeOf a ≤ n →
      keyEq (VariableTracker.get_key a) (VariableTracker.get_key b) = true →
      pyEqOptConst (VariableTracker.as_python_constant a)
        (VariableTracker.as_python_constant b) = true) :
    ∀ l1 l2 : List VariableTracker, (∀ x ∈ l1, sizeOf x ≤ n) →
      keyEqList (keysOf l1) (keysOf l2) = true →
      optEqLits (asConstLits l1) (asConstLits l2) = true := by
  intro l1
  induction l1 with
  | nil =>
    intro l2 _ hk
    cases l2 with
    | nil => rfl
    | cons y ys => simp [keysOf, keyEqList] at hk
  | cons x xs ihl =>
    intro l2 hsz hk
    cases l2 with
    | nil => simp [keysOf, keyEqList] at hk
    | cons y ys =>
      simp only [keysOf, keyEqList, Bool.and_eq_true] at hk
      obtain ⟨hxy, hrest⟩ := hk
      have hx := rec x y (hsz x (by simp)) hxy
      have hxs := ihl ys (fun z hz => hsz z (by simp [hz])) hrest
      simp only [asConstLits]
      rcases hax : VariableTracker.as_python_constant x with _ | px <;>
        rcases hay : VariableTracker.as_python_constant y with _ | py <;>
          rw [hax, hay] at hx
      · exact hxs ▸ (by cases hacx : asConstLits xs <;> cases hacy : asConstLits ys <;>
          simp_all [optEqLits])
      · exact absurd hx (by simp [pyEqOptConst])
      · exact absurd hx (by simp [pyEqOptConst])
      · cases px with
        | lit lx =>
          cases py with
          | lit ly =>
            have hpe : pyEq lx ly = true := by simpa [pyEqOptConst, pyEqConst] using hx
            cases hacx : asConstLits xs <;> cases hacy : asConstLits ys <;>
              rw [hacx, hacy] at hxs <;> simp_all [optEqLits, pyEqList]
          | sliceC sa sb sc => exact absurd hx (by simp [pyEqOptConst, pyEqConst])
        | sliceC sa sb sc =>
          cases py with
          | lit ly => exact absurd hx (by simp [pyEqOptConst, pyEqConst])
          | sliceC ta tb tc => rfl

theorem get_key_sound_bounded :
    ∀ (n : Nat) (a b : VariableTracker), sizeOf a ≤ n →
      keyEq (VariableTracker.get_key a) (VariableTracker.get_key b) = true →
      pyEqOptConst (VariableTracker.as_python_constant a)
        (VariableTracker.as_python_constant b) = true := by
  intro n
  induction n with
  | zero =>
    intro a b hsz _
    exact absurd hsz (by have := vt_sizeOf_pos a; omega)
  | succ n ih =>
    intro a b hsz hkey
    cases a with
    | ConstantVariable v1 c1 =>
      have hsh := keyEq_const_shape _ _ hkey
      obtain ⟨v2, hk2⟩ := hsh.1.mp ⟨v1, rfl⟩
      obtain ⟨c2, rfl⟩ := get_key_eq_constantK b v2 hk2
      have hpe := hsh.2 v1 v2 rfl hk2
      simp [VariableTracker.as_python_constant, pyEqOptConst, pyEqConst, hpe]
    | BaseListVariable k1 items1 c1 =>
      obtain ⟨l2, hk2, hkl⟩ := (keyEq_baselist_shape _ _ hkey).1 k1 (keysOf items1) rfl
      obtain ⟨items2, c2, rfl, hl2⟩ := get_key_eq_baseListK b k1 l2 hk2
      subst hl2
      have hsizes : ∀ x ∈ items1, sizeOf x ≤ n := by
        intro x hx
        have h1 := List.sizeOf_lt_of_mem hx
        have h2 : sizeOf (VariableTracker.BaseListVariable k1 items1 c1) =
            1 + sizeOf k1 + sizeOf items1 + sizeOf c1 := by simp
        omega
      have hlist := asConstLits_congr n ih items1 items2 hsizes hkl
      cases k1 with
      | list =>
        simp only [VariableTracker.as_python_constant]
        exact optEqLits_map_lit PyLit.list (fun a b hab => by simp [pyEq, hab]) _ _ hlist
      | tuple =>
        simp only [VariableTracker.as_python_constant]
        exact optEqLits_map_lit PyLit.tuple (fun a b hab => by simp [pyEq, hab]) _ _ hlist
      | slice =>
        simp only [VariableTracker.as_python_constant]
        exact optEqLits_bind_slice _ _ hlist
    | ConstDictVariable items c =>
      exact key_sound_trivial _ b hkey (by simp [VariableTracker.get_key])
        (by simp [VariableTracker.get_key])
    | ListIteratorVariable items i c =>
      exact key_sound_trivial _ b hkey (by simp [VariableTracker.get_key])
        (by simp [VariableTracker.get_key])
    | GetAttrVariable o nm c =>
      exact key_sound_trivial _ b hkey (by simp [VariableTracker.get_key])
        (by simp [VariableTracker.get_key])
    | NNModuleVariable k c =>
      exact key_sound_trivial _ b hkey (by simp [VariableTracker.get_key])
        (by simp [VariableTracker.get_key])
    | TensorVariable p c =>
      exact key_sound_trivial _ b hkey (by simp [VariableTracker.get_key])
        (by simp [VariableTracker.get_key])
    | UnsupportedVariable x t c =>
      exact key_sound_trivial _ b hkey (by simp [VariableTracker.get_key])
        (by simp [VariableTracker.get_key])
    | UnknownVariable c =>
      exact key_sound_trivial _ b hkey (by simp [VariableTracker.get_key])
        (by simp [VariableTracker.get_key])

/-- C4 counterexample: `ConstantVariable(True)` and `ConstantVariable(1)`
have equal identity keys (Python `True == 1`) yet are not interchangeable —
their `python_type()` results differ (`bool` vs `int`); and two
`TensorVariable`s over different graph nodes share the bare class key
(the base `get_key` is not overridden), so equal keys do not imply the same
underlying node. -/
theorem C4_identity_key_counterexample :
    keyEq
      (VariableTracker.get_key
        (VariableTracker.ConstantVariable (PyLit.bool true) Common.default))
      (VariableTracker.get_key
        (VariableTracker.ConstantVariable (PyLit.int 1) Common.default)) = true ∧
    VariableTracker.python_type
        (VariableTracker.ConstantVariable (PyLit.bool true) Common.default) ≠
      VariableTracker.python_type
        (VariableTracker.ConstantVariable (PyLit.int 1) Common.default) ∧
    keyEq
      (VariableTracker.get_key (VariableTracker.TensorVariable 0 Common.default))
      (VariableTracker.get_key (VariableTracker.TensorVariable 1 Common.default)) = true :=
  ⟨rfl, by decide, rfl⟩

/-- C4 (amended): equal identity keys imply agreement of the extractable
constants up to Python `==` (both extractions fail, or both succeed with
`==`-equal results — which may still differ in type, e.g. `True` vs `1`);
and for Unsupported values, equal keys imply the same underlying
`value_type`, hence equal `python_type`.  Equal keys do not guarantee
identical literals, equal `python_type`, or (for variants using the
base-class key, such as tensors) the same underlying dataflow node. -/
theorem C4_identity_key_soundness_amended (a b : VariableTracker) :
    (keyEq (VariableTracker.get_key a) (VariableTracker.get_key b) = true →
      pyEqOptConst (VariableTracker.as_python_constant a)
        (VariableTracker.as_python_constant b) = true) ∧
    (∀ i1 t1 c1 i2 t2 c2,
      a = VariableTracker.UnsupportedVariable i1 t1 c1 →
      b = VariableTracker.UnsupportedVariable i2 t2 c2 →
      keyEq (VariableTracker.get_key a) (VariableTracker.get_key b) = true →
      VariableTracker.python_type a = VariableTracker.python_type b) := by
  constructor
  · exact get_key_sound_bounded (sizeOf a) a b (Nat.le_refl _)
  · rintro i1 t1 c1 i2 t2 c2 rfl rfl hkey
    simp only [VariableTracker.get_key, keyEq, beq_iff_eq] at hkey
    simp [VariableTracker.python_type, hkey]

/-- C4 witness: two `==`-equal constants with equal keys, and two
Unsupported values of the same underlying type. -/
theorem C4_identity_key_witness :
    pyEqOptConst
      (VariableTracker.as_python_constant
        (VariableTracker.ConstantVariable (PyLit.int 3) Common.default))
      (VariableTracker.as_python_constant
        (VariableTracker.ConstantVariable (PyLit.int 3)
          ⟨TracingSupported.YES, ∅, Option.some "x", Option.none⟩)) = true ∧
    VariableTracker.python_type (VariableTracker.UnsupportedVariable 4 9 Common.default) =
      VariableTracker.python_type (VariableTracker.UnsupportedVariable 5 9 Common.default) :=
  ⟨(C4_identity_key_soundness_amended
      (VariableTracker.ConstantVariable (PyLit.int 3) Common.default)
      (VariableTracker.ConstantVariable (PyLit.int 3)
        ⟨TracingSupported.YES, ∅, Option.some "x", Option.none⟩)).1 rfl,
   (C4_identity_key_soundness_amended
      (VariableTracker.UnsupportedVariable 4 9 Common.default)
      (VariableTracker.UnsupportedVariable 5 9 Common.default)).2
     4 9 Common.default 5 9 Common.default rfl rfl rfl⟩

mutual

/-- `VariableTracker.apply(fn, value)`: walk the object and call `fn` on
every nested `VariableTracker`, producing a new tree.  The Python code
recurses through `value.__dict__` (a dict, whose keys it visits in sorted
order), through lists, and through dicts, returning every other object
unchanged, and finally calls `fn` on `value.clone(**transformed __dict__)`.
In this typed embedding the per-class `__dict__` recursion is structural:
exactly the `VariableTracker`-valued fields (item lists, dict values, the
`obj` of an attribute access) are transformed, and `clone` of a class with
its transformed fields is that constructor applied to the transformed
fields.  For dict items the code sorts the (unique) keys before recursing;
since the transform keeps keys unchanged and the comparison looks only at
keys, this equals transforming the entries and then sorting, which is the
form used here. -/
def VariableTracker.apply (fn : VariableTracker → VariableTracker) :
    VariableTracker → VariableTracker
  | VariableTracker.ConstantVariable v c => fn (VariableTracker.ConstantVariable v c)
  | VariableTracker.BaseListVariable k items c =>
    fn (VariableTracker.BaseListVariable k (applyList fn items) c)
  | VariableTracker.ConstDictVariable items c =>
    fn (VariableTracker.ConstDictVariable
      (List.insertionSort fstLe (applyDict fn items)) c)
  | VariableTracker.ListIteratorVariable items i c =>
    fn (VariableTracker.ListIteratorVariable (applyList fn items) i c)
  | VariableTracker.GetAttrVariable obj nm c =>
    fn (VariableTracker.GetAttrVariable (VariableTracker.apply fn obj) nm c)
  | VariableTracker.NNModuleVariable k c => fn (VariableTracker.NNModuleVariable k c)
  | VariableTracker.TensorVariable p c => fn (VariableTracker.TensorVariable p c)
  | VariableTracker.UnsupportedVariable x t c =>
    fn (VariableTracker.UnsupportedVariable x t c)
  | VariableTracker.UnknownVariable c => fn (VariableTracker.UnknownVariable c)

/-- The list branch of `apply`. -/
def applyList (fn : VariableTracker → VariableTracker) :
    List VariableTracker → List VariableTracker
  | [] => []
  | x :: xs => VariableTracker.apply fn x :: applyList fn xs

/-- The dict branch of `apply` on the entries, keys unchanged. -/
def applyDict (fn : VariableTracker → VariableTracker) :
    List (String × VariableTracker) → List (String × VariableTracker)
  | [] => []
  | (k, v) :: rest => (k, VariableTracker.apply fn v) :: applyDict fn rest

end

/-- `VariableTracker.copy(value) = apply(identity, value)`. -/
def VariableTracker.copy (value : VariableTracker) : VariableTracker :=
  VariableTracker.apply identity value

/-- Non-decreasing key order of an association list (the canonical layout a
sorted-key Python dict has). -/
def keysLeB {α : Type} : List (String × α) → Bool
  | [] => true
  | [_] => true
  | a :: b :: rest => decide (a.1 ≤ b.1) && keysLeB (b :: rest)

mutual

/-- Well-formedness of a value tree: every dict it contains is stored in
sorted key order (how a sorted-key-canonicalized Python dict compares
equal). -/
def wfVT : VariableTracker → Bool
  | VariableTracker.ConstantVariable _ _ => true
  | VariableTracker.BaseListVariable _ items _ => wfList items
  | VariableTracker.ConstDictVariable items _ => keysLeB items && wfDict items
  | VariableTracker.ListIteratorVariable items _ _ => wfList items
  | VariableTracker.GetAttrVariable obj _ _ => wfVT obj
  | VariableTracker.NNModuleVariable _ _ => true
  | VariableTracker.TensorVariable _ _ => true
  | VariableTracker.UnsupportedVariable _ _ _ => true
  | VariableTracker.UnknownVariable _ => true

/-- `wfVT` on each list element. -/
def wfList : List VariableTracker → Bool
  | [] => true
  | x :: xs => wfVT x && wfList xs

/-- `wfVT` on each dict value. -/
def wfDict : List (String × VariableTracker) → Bool
  | [] => true
  | (_, v) :: rest => wfVT v && wfDict rest

end

mutual

/-- Every `VariableTracker` node of the tree carries guard `g`. -/
def allG (g : Guard) : VariableTracker → Bool
  | VariableTracker.ConstantVariable _ c => decide (g ∈ c.guards)
  | VariableTracker.BaseListVariable _ items c =>
    decide (g ∈ c.guards) && allGList g items
  | VariableTracker.ConstDictVariable items c =>
    decide (g ∈ c.guards) && allGDict g items
  | VariableTracker.ListIteratorVariable items _ c =>
    decide (g ∈ c.guards) && allGList g items
  | VariableTracker.GetAttrVariable obj _ c => decide (g ∈ c.guards) && allG g obj
  | VariableTracker.NNModuleVariable _ c => decide (g ∈ c.guards)
  | VariableTracker.TensorVariable _ c => decide (g ∈ c.guards)
  | VariableTracker.UnsupportedVariable _ _ c => decide (g ∈ c.guards)
  | VariableTracker.UnknownVariable c => decide (g ∈ c.guards)

/-- `allG` on each list element. -/
def allGList (g : Guard) : List VariableTracker → Bool
  | [] => true
  | x :: xs => allG g x && allGList g xs

/-- `allG` on each dict value. -/
def allGDict (g : Guard) : List (String × VariableTracker) → Bool
  | [] => true
  | (_, v) :: rest => allG g v && allGDict g rest

end

instance instIsTotalFstLe {α : Type} : IsTotal (String × α) fstLe :=
  ⟨fun a b => le_total a.1 b.1⟩

instance instIsTransFstLe {α : Type} : IsTrans (String × α) fstLe :=
  ⟨fun _ _ _ h1 h2 => le_trans h1 h2⟩

theorem keysLeB_iff_sorted {α : Type} :
    ∀ l : List (String × α), keysLeB l = true ↔ l.Sorted fstLe := by
  intro l
  induction l with
  | nil => simp [keysLeB]
  | cons a rest ih =>
    cases rest with
    | nil => simp [keysLeB]
    | cons b rest2 =>
      have hk : keysLeB (a :: b :: rest2) =
          (decide (a.1 ≤ b.1) && keysLeB (b :: rest2)) := rfl
      rw [hk, Bool.and_eq_true, decide_eq_true_eq, ih]
      constructor
      · rintro ⟨h1, h2⟩
        rw [List.sorted_cons]
        refine ⟨fun x hx => ?_, h2⟩
        rcases List.mem_cons.mp hx with rfl | hx
        · exact h1
        · exact le_trans h1 ((List.sorted_cons.mp h2).1 x hx)
      · intro hs
        have hs2 := List.sorted_cons.mp hs
        exact ⟨hs2.1 b (by simp), hs2.2⟩

theorem wfList_iff (l : List VariableTracker) :
    wfList l = true ↔ ∀ x ∈ l, wfVT x = true := by
  induction l with
  | nil => simp [wfList]
  | cons x xs ih =>
    rw [show wfList (x :: xs) = (wfVT x && wfList xs) from rfl, Bool.and_eq_true, ih]
    simp [List.mem_cons]

theorem wfDict_iff (l : List (String × VariableTracker)) :
    wfDict l = true ↔ ∀ p ∈ l, wfVT p.2 = true := by
  induction l with
  | nil => simp [wfDict]
  | cons p ps ih =>
    rcases p with ⟨k, v⟩
    rw [show wfDict ((k, v) :: ps) = (wfVT v && wfDict ps) from rfl,
      Bool.and_eq_true, ih]
    constructor
    · rintro ⟨h1, h2⟩ q hq
      rcases List.mem_cons.mp hq with rfl | hq
      · exact h1
      · exact h2 q hq
    · intro h
      exact ⟨h (k, v) (by simp), fun q hq => h q (by simp [hq])⟩

theorem allGList_iff (g : Guard) (l : List VariableTracker) :
    allGList g l = true ↔ ∀ x ∈ l, allG g x = true := by
  induction l with
  | nil => simp [allGList]
  | cons x xs ih =>
    rw [show allGList g (x :: xs) = (allG g x && allGList g xs) from rfl,
      Bool.and_eq_true, ih]
    simp [List.mem_cons]

theorem allGDict_iff (g : Guard) (l : List (String × VariableTracker)) :
    allGDict g l = true ↔ ∀ p ∈ l, allG g p.2 = true := by
  induction l with
  | nil => simp [allGDict]
  | cons p ps ih =>
    rcases p with ⟨k, v⟩
    rw [show allGDict g ((k, v) :: ps) = (allG g v && allGDict g ps) from rfl,
      Bool.and_eq_true, ih]
    constructor
    · rintro ⟨h1, h2⟩ q hq
      rcases List.mem_cons.mp hq with rfl | hq
      · exact h1
      · exact h2 q hq
    · intro h
      exact ⟨h (k, v) (by simp), fun q hq => h q (by simp [hq])⟩

theorem applyList_mem (fn : VariableTracker → VariableTracker)
    (l : List VariableTracker) :
    ∀ p ∈ applyList fn l, ∃ q ∈ l, p = VariableTracker.apply fn q := by
  induction l with
  | nil => intro p hp; cases hp
  | cons x xs ih =>
    intro p hp
    rcases List.mem_cons.mp hp with rfl | hp
    · exact ⟨x, by simp, rfl⟩
    · obtain ⟨q, hq, rfl⟩ := ih p hp
      exact ⟨q, by simp [hq], rfl⟩

theorem applyDict_mem (fn : VariableTracker → VariableTracker)
    (l : List (String × VariableTracker)) :
    ∀ p ∈ applyDict fn l, ∃ q ∈ l, p = (q.1, VariableTracker.apply fn q.2) := by
  induction l with
  | nil => intro p hp; cases hp
  | cons x xs ih =>
    rcases x with ⟨k, v⟩
    intro p hp
    rcases List.mem_cons.mp hp with rfl | hp
    · exact ⟨(k, v), by simp, rfl⟩
    · obtain ⟨q, hq, rfl⟩ := ih p hp
      exact ⟨q, by simp [hq], rfl⟩

theorem applyList_id_of (n : Nat)
    (rec : ∀ t, sizeOf t ≤ n → wfVT t = true → VariableTracker.apply identity t = t) :
    ∀ l : List VariableTracker, (∀ x ∈ l, sizeOf x ≤ n) → wfList l = true →
      applyList identity l = l := by
  intro l
  induction l with
  | nil => intro _ _; rfl
  | cons x xs ih =>
    intro hsz hwf
    rw [show wfList (x :: xs) = (wfVT x && wfList xs) from rfl, Bool.and_eq_true] at hwf
    show VariableTracker.apply identity x :: applyList identity xs = x :: xs
    rw [rec x (hsz x (by simp)) hwf.1, ih (fun z hz => hsz z (by simp [hz])) hwf.2]

theorem applyDict_id_of (n : Nat)
    (rec : ∀ t, sizeOf t ≤ n → wfVT t = true → VariableTracker.apply identity t = t) :
    ∀ l : List (String × VariableTracker), (∀ p ∈ l, sizeOf p.2 ≤ n) →
      wfDict l = true → applyDict identity l = l := by
  intro l
  induction l with
  | nil => intro _ _; rfl
  | cons x xs ih =>
    rcases x with ⟨k, v⟩
    intro hsz hwf
    rw [show wfDict ((k, v) :: xs) = (wfVT v && wfDict xs) from rfl,
      Bool.and_eq_true] at hwf
    show (k, VariableTracker.apply identity v) :: applyDict identity xs = (k, v) :: xs
    rw [rec v (hsz (k, v) (by simp)) hwf.1, ih (fun z hz => hsz z (by simp [hz])) hwf.2]

theorem apply_id_bounded :
    ∀ n t, sizeOf t ≤ n → wfVT t = true → VariableTracker.apply identity t = t := by
  intro n
  induction n with
  | zero =>
    intro t h _
    exact absurd h (by have := vt_sizeOf_pos t; omega)
  | succ n ih =>
    intro t hsz hwf
    cases t with
    | ConstantVariable v c => rfl
    | NNModuleVariable k c => rfl
    | TensorVariable p c => rfl
    | UnsupportedVariable x tt c => rfl
    | UnknownVariable c => rfl
    | GetAttrVariable o nm c =>
      have hso : sizeOf o ≤ n := by
        have h2 : sizeOf (VariableTracker.GetAttrVariable o nm c) =
            1 + sizeOf o + sizeOf nm + sizeOf c := by simp
        omega
      have hwo : wfVT o = true := hwf
      simp only [VariableTracker.apply, identity]
      rw [ih o hso hwo]
    | BaseListVariable k items c =>
      have hsizes : ∀ x ∈ items, sizeOf x ≤ n := by
        intro x hx
        have h1 := List.sizeOf_lt_of_mem hx
        have h2 : sizeOf (VariableTracker.BaseListVariable k items c) =
            1 + sizeOf k + sizeOf items + sizeOf c := by simp
        omega
      have hwf2 : wfList items = true := hwf
      simp only [VariableTracker.apply, identity]
      rw [applyList_id_of n ih items hsizes hwf2]
    | ListIteratorVariable items i c =>
      have hsizes : ∀ x ∈ items, sizeOf x ≤ n := by
        intro x hx
        have h1 := List.sizeOf_lt_of_mem hx
        have h2 : sizeOf (VariableTracker.ListIteratorVariable items i c) =
            1 + sizeOf items + sizeOf i + sizeOf c := by simp
        omega
      have hwf2 : wfList items = true := hwf
      simp only [VariableTracker.apply, identity]
      rw [applyList_id_of n ih items hsizes hwf2]
    | ConstDictVariable items c =>
      have hwf2 : (keysLeB items && wfDict items) = true := hwf
      rw [Bool.and_eq_true] at hwf2
      have hsizes : ∀ p ∈ items, sizeOf p.2 ≤ n := by
        intro p hp
        rcases p with ⟨kk, vv⟩
        have h1 := List.sizeOf_lt_of_mem hp
        have h2 : sizeOf (VariableTracker.ConstDictVariable items c) =
            1 + sizeOf items + sizeOf c := by simp
        have h3 : sizeOf (kk, vv) = 1 + sizeOf kk + sizeOf vv := by simp
        show sizeOf vv ≤ n
        omega
      simp only [VariableTracker.apply, identity]
      rw [applyDict_id_of n ih items hsizes hwf2.2,
        List.Sorted.insertionSort_eq ((keysLeB_iff_sorted items).mp hwf2.1)]

theorem applyList_allG_of (g : Guard) (n : Nat)
    (rec : ∀ t, sizeOf t ≤ n →
      allG g (VariableTracker.apply (fun v => VariableTracker.add_guard v g) t) = true) :
    ∀ l : List VariableTracker, (∀ x ∈ l, sizeOf x ≤ n) →
      allGList g (applyList (fun v => VariableTracker.add_guard v g) l) = true := by
  intro l
  induction l with
  | nil => intro _; rfl
  | cons x xs ih =>
    intro hsz
    show (allG g (VariableTracker.apply (fun v => VariableTracker.add_guard v g) x) &&
      allGList g (applyList (fun v => VariableTracker.add_guard v g) xs)) = true
    rw [rec x (hsz x (by simp)), ih (fun z hz => hsz z (by simp [hz]))]
    rfl

theorem applyDict_allG_of (g : Guard) (n : Nat)
    (rec : ∀ t, sizeOf t ≤ n →
      allG g (VariableTracker.apply (fun v => VariableTracker.add_guard v g) t) = true) :
    ∀ l : List (String × VariableTracker), (∀ p ∈ l, sizeOf p.2 ≤ n) →
      ∀ p ∈ applyDict (fun v => VariableTracker.add_guard v g) l,
        allG g p.2 = true := by
  intro l hsz p hp
  obtain ⟨q, hq, rfl⟩ := applyDict_mem _ l p hp
  exact rec q.2 (hsz q hq)

theorem guards_mem_add_guard (g : Guard) (u : VariableTracker) :
    g ∈ (VariableTracker.add_guard u g).guards := by
  rw [VariableTracker.add_guard, setGuards_guards]
  exact Finset.mem_union_right _ (Finset.mem_singleton_self g)

theorem apply_allG_bounded (g : Guard) :
    ∀ n t, sizeOf t ≤ n →
      allG g (VariableTracker.apply (fun v => VariableTracker.add_guard v g) t) = true := by
  intro n
  induction n with
  | zero =>
    intro t h
    exact absurd h (by have := vt_sizeOf_pos t; omega)
  | succ n ih =>
    intro t hsz
    cases t with
    | ConstantVariable v c =>
      simp [VariableTracker.apply, VariableTracker.add_guard, VariableTracker.setGuards,
        VariableTracker.guards, VariableTracker.common, allG]
    | NNModuleVariable k c =>
      simp [VariableTracker.apply, VariableTracker.add_guard, VariableTracker.setGuards,
        VariableTracker.guards, VariableTracker.common, allG]
    | TensorVariable p c =>
      simp [VariableTracker.apply, VariableTracker.add_guard, VariableTracker.setGuards,
        VariableTracker.guards, VariableTracker.common, allG]
    | UnsupportedVariable x tt c =>
      simp [VariableTracker.apply, VariableTracker.add_guard, VariableTracker.setGuards,
        VariableTracker.guards, VariableTracker.common, allG]
    | UnknownVariable c =>
      simp [VariableTracker.apply, VariableTracker.add_guard, VariableTracker.setGuards,
        VariableTracker.guards, VariableTracker.common, allG]
    | GetAttrVariable o nm c =>
      have hso : sizeOf o ≤ n := by
        have h2 : sizeOf (VariableTracker.GetAttrVariable o nm c) =
            1 + sizeOf o + sizeOf nm + sizeOf c := by simp
        omega
      simp only [VariableTracker.apply, VariableTracker.add_guard,
        VariableTracker.setGuards, allG, Bool.and_eq_true]
      refine ⟨by simp [VariableTracker.guards, VariableTracker.common], ?_⟩
      exact ih o hso
    | BaseListVariable k items c =>
      have hsizes : ∀ x ∈ items, sizeOf x ≤ n := by
        intro x hx
        have h1 := List.sizeOf_lt_of_mem hx
        have h2 : sizeOf (VariableTracker.BaseListVariable k items c) =
            1 + sizeOf k + sizeOf items + sizeOf c := by simp
        omega
      simp only [VariableTracker.apply, VariableTracker.add_guard,
        VariableTracker.setGuards, allG, Bool.and_eq_true]
      refine ⟨by simp [VariableTracker.guards, VariableTracker.common], ?_⟩
      exact applyList_allG_of g n ih items hsizes
    | ListIteratorVariable items i c =>
      have hsizes : ∀ x ∈ items, sizeOf x ≤ n := by
        intro x hx
        have h1 := List.sizeOf_lt_of_mem hx
        have h2 : sizeOf (VariableTracker.ListIteratorVariable items i c) =
            1 + sizeOf items + sizeOf i + sizeOf c := by simp
        omega
      simp only [VariableTracker.apply, VariableTracker.add_guard,
        VariableTracker.setGuards, allG, Bool.and_eq_true]
      refine ⟨by simp [VariableTracker.guards, VariableTracker.common], ?_⟩
      exact applyList_allG_of g n ih items hsizes
    | ConstDictVariable items c =>
      have hsizes : ∀ p ∈ items, sizeOf p.2 ≤ n := by
        intro p hp
        rcases p with ⟨kk, vv⟩
        have h1 := List.sizeOf_lt_of_mem hp
        have h2 : sizeOf (VariableTracker.ConstDictVariable items c) =
            1 + sizeOf items + sizeOf c := by simp
        have h3 : sizeOf (kk, vv) = 1 + sizeOf kk + sizeOf vv := by simp
        show sizeOf vv ≤ n
        omega
      simp only [VariableTracker.apply, VariableTracker.add_guard,
        VariableTracker.setGuards, allG, Bool.and_eq_true]
      refine ⟨by simp [VariableTracker.guards, VariableTracker.common], ?_⟩
      rw [allGDict_iff]
      intro p hp
      have hp2 : p ∈ applyDict (fun v => VariableTracker.add_guard v g) items :=
        (List.mem_insertionSort fstLe).mp hp
      exact applyDict_allG_of g n ih items hsizes p hp2

theorem wf_apply_id_bounded :
    ∀ n t, sizeOf t ≤ n → wfVT (VariableTracker.apply identity t) = true := by
  intro n
  induction n with
  | zero =>
    intro t h
    exact absurd h (by have := vt_sizeOf_pos t; omega)
  | succ n ih =>
    intro t hsz
    cases t with
    | ConstantVariable v c => rfl
    | NNModuleVariable k c => rfl
    | TensorVariable p c => rfl
    | UnsupportedVariable x tt c => rfl
    | UnknownVariable c => rfl
    | GetAttrVariable o nm c =>
      have hso : sizeOf o ≤ n := by
        have h2 : sizeOf (VariableTracker.GetAttrVariable o nm c) =
            1 + sizeOf o + sizeOf nm + sizeOf c := by simp
        omega
      show wfVT (VariableTracker.GetAttrVariable (VariableTracker.apply identity o) nm c) = true
      show wfVT (VariableTracker.apply identity o) = true
      exact ih o hso
    | BaseListVariable k items c =>
      have hsizes : ∀ x ∈ items, sizeOf x ≤ n := by
        intro x hx
        have h1 := List.sizeOf_lt_of_mem hx
        have h2 : sizeOf (VariableTracker.BaseListVariable k items c) =
            1 + sizeOf k + sizeOf items + sizeOf c := by simp
        omega
      show wfList (applyList identity items) = true
      rw [wfList_iff]
      intro x hx
      obtain ⟨q, hq, rfl⟩ := applyList_mem identity items x hx
      exact ih q (hsizes q hq)
    | ListIteratorVariable items i c =>
      have hsizes : ∀ x ∈ items, sizeOf x ≤ n := by
        intro x hx
        have h1 := List.sizeOf_lt_of_mem hx
        have h2 : sizeOf (VariableTracker.ListIteratorVariable items i c) =
            1 + sizeOf items + sizeOf i + sizeOf c := by simp
        omega
      show wfList (applyList identity items) = true
      rw [wfList_iff]
      intro x hx
      obtain ⟨q, hq, rfl⟩ := applyList_mem identity items x hx
      exact ih q (hsizes q hq)
    | ConstDictVariable items c =>
      have hsizes : ∀ p ∈ items, sizeOf p.2 ≤ n := by
        intro p hp
        rcases p with ⟨kk, vv⟩
        have h1 := List.sizeOf_lt_of_mem hp
        have h2 : sizeOf (VariableTracker.ConstDictVariable items c) =
            1 + sizeOf items + sizeOf c := by simp
        have h3 : sizeOf (kk, vv) = 1 + sizeOf kk + sizeOf vv := by simp
        show sizeOf vv ≤ n
        omega
      show (keysLeB (List.insertionSort fstLe (applyDict identity items)) &&
        wfDict (List.insertionSort fstLe (applyDict identity items))) = true
      rw [Bool.and_eq_true]
      constructor
      · exact (keysLeB_iff_sorted _).mpr (List.sorted_insertionSort fstLe _)
      · rw [wfDict_iff]
        intro p hp
        have hp2 : p ∈ applyDict identity items :=
          (List.mem_insertionSort fstLe).mp hp
        obtain ⟨q, hq, rfl⟩ := applyDict_mem identity items p hp2
        exact ih q.2 (hsizes q hq)

/-- C6: `apply(fn, value)` is a pure functional transform of the value tree.
In this embedding every operation is a pure function, so the input tree and
its nested values are never mutated by construction; the theorem records the
behavioural content: (1) deep-copy semantics — applying the identity
function to a canonical tree (every dict in sorted key order, which is how
Python's order-insensitive dict equality is represented here) returns an
equal tree, i.e. `copy` preserves the value; (2) the visitor reaches every
nested value through lists, maps and attribute objects — applying
`add_guard g` leaves every node of the resulting tree carrying `g`; (3) map
keys are visited in sorted order — every dict of the output tree is in
sorted key order, deterministically.  `fn` is applied bottom-up to a clone
by the defining equations of `apply`. -/
theorem C6_apply_pure_functional_transform (t : VariableTracker) (g : Guard) :
    (wfVT t = true → VariableTracker.apply identity t = t) ∧
    allG g (VariableTracker.apply (fun v => VariableTracker.add_guard v g) t) = true ∧
    wfVT (VariableTracker.apply identity t) = true :=
  ⟨fun h => apply_id_bounded (sizeOf t) t (Nat.le_refl _) h,
   apply_allG_bounded g (sizeOf t) t (Nat.le_refl _),
   wf_apply_id_bounded (sizeOf t) t (Nat.le_refl _)⟩

/-- Concrete nested tree for the C6 witness: a list holding a one-entry dict
and an attribute access over a tensor. -/
def applyW : VariableTracker :=
  VariableTracker.BaseListVariable ListKind.list
    [VariableTracker.ConstDictVariable
      [("k", VariableTracker.ConstantVariable (PyLit.int 1) Common.default)]
      Common.default,
     VariableTracker.GetAttrVariable (VariableTracker.TensorVariable 3 Common.default)
      "w" Common.default]
    Common.default

/-- C6 witness: the identity traversal reproduces the concrete tree, and the
`add_guard` traversal reaches every nested node. -/
theorem C6_apply_witness :
    VariableTracker.apply identity applyW = applyW ∧
    allG gA (VariableTracker.apply (fun v => VariableTracker.add_guard v gA) applyW) = true :=
  ⟨(C6_apply_pure_functional_transform applyW gA).1 rfl,
   (C6_apply_pure_functional_transform applyW gA).2.1⟩
